import Mathlib

/-!
Verification development for the graph-event ingestion pipeline of the
`graph_chat` repository.

The development shallowly embeds:
  * the event model (`src/src/ingestion/models/events.py`),
  * the Gremlin upsert engine (`src/src/ingestion/consume/gremlin_client.py`):
    the graph-store effect of its fixed query templates, its retry loop and
    its string escaping,
  * the event processor (`src/src/ingestion/consume/consume.py`): node-event
    buffering, flushing and shutdown, as a trace of engine/consumer calls,
  * the Event Hub consumer (`src/src/consume/event_hub_consumer.py`):
    per-event dispatch and checkpointing.

Property maps (`data: dict[str, Any]`) are embedded as ordered association
lists (`List (String × String)`); Python `None` values are `Option.none`.
-/

namespace GraphChat

/-! ### Event model (`src/src/ingestion/models/events.py`) -/

/-- `NodeType` enum. -/
inductive NodeType where
  | USER | ARTICLE | PRODUCT | PRODUCT_TYPE | PRODUCT_GROUP
  | COLOUR_GROUP | DEPARTMENT | INDEX_GROUP
  deriving DecidableEq, Repr

/-- `NodeType.value` (the `str` value of the enum member). -/
def NodeType.value : NodeType → String
  | .USER => "user"
  | .ARTICLE => "article"
  | .PRODUCT => "product"
  | .PRODUCT_TYPE => "product_type"
  | .PRODUCT_GROUP => "product_group"
  | .COLOUR_GROUP => "colour_group"
  | .DEPARTMENT => "department"
  | .INDEX_GROUP => "index_group"

/-- `Action` enum. -/
inductive Action where
  | UPSERT | DELETE
  deriving DecidableEq, Repr

/-- `EdgeType` enum. -/
inductive EdgeType where
  | PURCHASED | BELONGS_TO | LIKES
  deriving DecidableEq, Repr

/-- `EdgeType.value`. -/
def EdgeType.value : EdgeType → String
  | .PURCHASED => "purchased"
  | .BELONGS_TO => "belongs_to"
  | .LIKES => "likes"

/-- `GraphNodeEvent`.  `data` is an insertion-ordered string-keyed map whose
values may be Python `None` (embedded as `Option.none`); `event_id` only ever
reaches log output, it is carried as a plain string. -/
structure GraphNodeEvent where
  event_id : String
  node_type : NodeType
  data : List (String × Option String)
  action : Action
  label : String
  deriving DecidableEq, Repr

/-- `GraphEdgeEvent`. -/
structure GraphEdgeEvent where
  event_id : String
  edge_type : EdgeType
  source_node_id : String
  source_node_type : NodeType
  target_node_id : String
  target_node_type : NodeType
  data : List (String × Option String)
  action : Action
  deriving DecidableEq, Repr

/-! ### Property-map algebra

The store-side effect of a `.property('k', 'v')` step in a Gremlin traversal
(Cosmos DB vertices/edges have single-cardinality properties): set key `k`
to `v`, replacing the existing value in place, else appending the key. -/

/-- First-match lookup in an association list. -/
def lookupP : List (String × String) → String → Option String
  | [], _ => none
  | kv :: t, k => if kv.1 = k then some kv.2 else lookupP t k

/-- Effect of one `.property(k, v)` step: replace the first binding of `k`
in place, or append `(k, v)` if `k` is absent. -/
def setProp : List (String × String) → String → String → List (String × String)
  | [], k, v => [(k, v)]
  | kv :: t, k, v => if kv.1 = k then (k, v) :: t else kv :: setProp t k v

/-- Effect of a chain of `.property` steps, applied left to right. -/
def updProps (p : List (String × String)) (d : List (String × String)) :
    List (String × String) :=
  d.foldl (fun acc kv => setProp acc kv.1 kv.2) p

/-- The value the last write to `k` in `d` assigns (if any): the value `k`
ends up with after a `.property` chain for `d`. -/
def lastVal : List (String × String) → String → Option String
  | [], _ => none
  | kv :: t, k =>
    match lastVal t k with
    | some v => some v
    | none => if kv.1 = k then some kv.2 else none

/-- `GremlinService._build_property_string`'s key/value selection: drop
excluded keys and `None` values (map-level counterpart of the generated
`.property` chain). -/
def effProps (data : List (String × Option String)) (excl : List String) :
    List (String × String) :=
  data.filterMap fun kv =>
    match kv.2 with
    | none => none
    | some v => if kv.1 ∈ excl then none else some (kv.1, v)

/-! ### Graph store and the effect of the fixed query templates
(`src/src/ingestion/consume/gremlin_client.py`)

The Cosmos DB graph is embedded as lists of vertices and edges.  Each
`GremlinService` mutation method builds one fixed query template; the
definitions below give the store-side effect of those templates.  `g.V(id)`
is first-match lookup by vertex id; `has('label', l)` filters on the vertex
label given to `addV`; creating a vertex whose id already exists is rejected
by the server (embedded as `Except.error`). -/

structure Vertex where
  id : String
  vLabel : String
  partitionKey : String
  props : List (String × String)
  deriving DecidableEq, Repr

structure GraphEdge where
  src : String
  tgt : String
  eLabel : String
  props : List (String × String)
  deriving DecidableEq, Repr

structure GraphStore where
  vertices : List Vertex
  edges : List GraphEdge
  deriving DecidableEq, Repr

/-- `g.V(i)`: first vertex with id `i`. -/
def findV : List Vertex → String → Option Vertex
  | [], _ => none
  | v :: t, i => if v.id = i then some v else findV t i

/-- Rewrite the first vertex with id `i` through `f`. -/
def updV (f : Vertex → Vertex) : List Vertex → String → List Vertex
  | [], _ => []
  | v :: t, i => if v.id = i then f v :: t else v :: updV f t i

/-- First edge `src --eLabel--> tgt` (the key
`(source id, target id, edge type)` of the edge-upsert template). -/
def findE : List GraphEdge → String → String → String → Option GraphEdge
  | [], _, _, _ => none
  | ed :: t, s, g, l =>
    if ed.src = s ∧ ed.tgt = g ∧ ed.eLabel = l then some ed else findE t s g l

/-- Rewrite the first matching edge through `f`. -/
def updE (f : GraphEdge → GraphEdge) :
    List GraphEdge → String → String → String → List GraphEdge
  | [], _, _, _ => []
  | ed :: t, s, g, l =>
    if ed.src = s ∧ ed.tgt = g ∧ ed.eLabel = l then f ed :: t
    else ed :: updE f t s g l

/-- `GremlinService._upsert_node`: effect of
`g.V(label).has('label', label).fold().coalesce(unfold(){props},
addV(label).property('id', label).property('partitionKey', node_type){props})`.
The coalesce's `addV` branch fires when no vertex matches id *and* label; if
a vertex with that id (but another label) already exists the server rejects
the insert (duplicate id), which `execute_query` re-raises. -/
def applyPropsV (eff : List (String × String)) (w : Vertex) : Vertex :=
  { w with props := updProps w.props eff }

/-- The vertex the `addV` branch of `_upsert_node` creates. -/
def newNodeVertex (lab node_type : String) (eff : List (String × String)) :
    Vertex :=
  { id := lab, vLabel := lab, partitionKey := node_type,
    props := updProps [] eff }

def upsert_node (lab node_type : String) (data : List (String × Option String))
    (g : GraphStore) : Except Unit GraphStore :=
  let eff := effProps data ["id", "partitionKey"]
  match findV g.vertices lab with
  | some v =>
    if v.vLabel = lab then
      .ok { g with vertices := updV (applyPropsV eff) g.vertices lab }
    else .error ()
  | none =>
    .ok { g with vertices := g.vertices ++ [newNodeVertex lab node_type eff] }

/-- `GremlinService._delete_node`: effect of
`g.V(label).has('label', label).drop()` — drop every matching vertex;
deleting a non-existent vertex is a no-op. -/
def delete_node (lab : String) (g : GraphStore) : GraphStore :=
  { g with
    vertices := g.vertices.filter fun v => ¬(v.id = lab ∧ v.vLabel = lab) }

/-- The two "ensure endpoint" queries of `GremlinService._upsert_edge`:
`g.V(id).fold().coalesce(unfold(), addV(pk).property('id', id)
.property('partitionKey', pk))` — create a minimal vertex if absent. -/
def ensure_vertex (i pk : String) (g : GraphStore) : GraphStore :=
  match findV g.vertices i with
  | some _ => g
  | none =>
    { g with
      vertices := g.vertices ++
        [{ id := i, vLabel := pk, partitionKey := pk, props := [] }] }

/-- The edge-upsert query of `GremlinService._upsert_edge`:
`g.V(src).outE(lbl).where(inV().has('id', tgt)).fold().coalesce(
unfold(){props}, g.V(src).addE(lbl).to(g.V(tgt)){props})`.
If either endpoint is absent the traversal maps no traverser and nothing is
written (in `_upsert_edge` the two ensure queries have already created
both endpoints). -/
def upsert_edge_query (s t lbl : String) (data : List (String × Option String))
    (g : GraphStore) : GraphStore :=
  let eff := effProps data []
  match findV g.vertices s, findV g.vertices t with
  | some _, some _ =>
    match findE g.edges s t lbl with
    | some _ =>
      { g with
        edges :=
          updE (fun ed => { ed with props := updProps ed.props eff })
            g.edges s t lbl }
    | none =>
      { g with
        edges := g.edges ++
          [{ src := s, tgt := t, eLabel := lbl, props := updProps [] eff }] }
  | _, _ => g

/-- `GremlinService._upsert_edge`: ensure the source vertex, ensure the
target vertex, then upsert the edge — three queries in that order. -/
def upsert_edge (e : GraphEdgeEvent) (g : GraphStore) : GraphStore :=
  upsert_edge_query e.source_node_id e.target_node_id e.edge_type.value e.data
    (ensure_vertex e.target_node_id e.target_node_type.value
      (ensure_vertex e.source_node_id e.source_node_type.value g))

/-- `GremlinService._delete_edge`:
`g.V(src).outE(lbl).where(inV().has('id', tgt)).drop()`. -/
def delete_edge (e : GraphEdgeEvent) (g : GraphStore) : GraphStore :=
  { g with
    edges := g.edges.filter fun ed =>
      ¬(ed.src = e.source_node_id ∧ ed.tgt = e.target_node_id ∧
        ed.eLabel = e.edge_type.value) }

/-- `GremlinService.process_node_event`: dispatch on the event action. -/
def process_node_event (e : GraphNodeEvent) (g : GraphStore) :
    Except Unit GraphStore :=
  match e.action with
  | .UPSERT => upsert_node e.label e.node_type.value e.data g
  | .DELETE => .ok (delete_node e.label g)

/-- Resulting store state of `process_node_event`: a rejected write leaves
the store unchanged (the raised error propagates to the caller). -/
def apply_node_event (e : GraphNodeEvent) (g : GraphStore) : GraphStore :=
  match process_node_event e g with
  | .ok g2 => g2
  | .error _ => g

/-- `GremlinService.process_edge_event`: dispatch on the event action. -/
def process_edge_event (e : GraphEdgeEvent) (g : GraphStore) : GraphStore :=
  match e.action with
  | .UPSERT => upsert_edge e g
  | .DELETE => delete_edge e g

/-- Store representation invariant: property maps carry each key once (a
Cosmos vertex has one value per single-cardinality property key), and vertex
ids are unique. -/
def StoreWF (g : GraphStore) : Prop :=
  (g.vertices.map Vertex.id).Nodup ∧
    ∀ v ∈ g.vertices, (v.props.map Prod.fst).Nodup

instance (g : GraphStore) : Decidable (StoreWF g) := by
  unfold StoreWF; infer_instance

/-! ### Retry loop of `GremlinService.execute_query`

The loop `for attempt in range(MAX_RETRIES)` is embedded with an explicit
attempt counter and fuel (`fuel = MAX_RETRIES - attempt` at entry).  The
outcome of each `submit` is an oracle `outcome : Nat → GOutcome α`; the
value `random.uniform(0, 1)` drawn before the sleep of attempt `i` is an
oracle `jitter : Nat → ℚ`.  The run records the result, the number of
submits performed and the sleeps performed, in order. -/

def MAX_RETRIES : Nat := 5

def BASE_DELAY_SECONDS : ℚ := 1

def MAX_DELAY_SECONDS : ℚ := 32

/-- Result of one `self.gremlin_client.submit(query)` attempt, as
`execute_query` classifies it: success, a 401/403/Unauthorized
`GremlinServerError`, a 429/RequestRateTooLarge one, or any other
`GremlinServerError`.  Errors are tagged by a numeric identity so that
"the last error is raised" is expressible. -/
inductive GOutcome (α : Type) where
  | ok (a : α)
  | authErr (e : Nat)
  | rateLimit (e : Nat)
  | otherErr (e : Nat)
  deriving DecidableEq, Repr

deriving instance DecidableEq for Except

structure QueryRun (α : Type) where
  result : Except Nat α
  submits : Nat
  delays : List ℚ
  deriving DecidableEq, Repr

/-- `delay = min(BASE_DELAY_SECONDS * (2 ** attempt) + random.uniform(0, 1),
MAX_DELAY_SECONDS)`. -/
def delayFor (jitter : Nat → ℚ) (attempt : Nat) : ℚ :=
  min (BASE_DELAY_SECONDS * 2 ^ attempt + jitter attempt) MAX_DELAY_SECONDS

/-- Body of the retry loop of `execute_query`.  `last` is `last_exception`;
when the fuel runs out the trailing `raise last_exception` fires (dead code:
the final iteration always returns or raises; `0` stands for Python's
`None`). -/
def execLoop (outcome : Nat → GOutcome α) (jitter : Nat → ℚ) :
    Nat → Nat → Option Nat → QueryRun α
  | _, 0, last => ⟨.error (last.getD 0), 0, []⟩
  | attempt, fuel + 1, last =>
    match outcome attempt with
    | .ok a => ⟨.ok a, 1, []⟩
    | .authErr e =>
      -- token refreshed (client closed); retry immediately if attempts remain
      if attempt < MAX_RETRIES - 1 then
        let r := execLoop outcome jitter (attempt + 1) fuel last
        ⟨r.result, r.submits + 1, r.delays⟩
      else ⟨.error e, 1, []⟩
    | .rateLimit e =>
      if attempt < MAX_RETRIES - 1 then
        let r := execLoop outcome jitter (attempt + 1) fuel (some e)
        ⟨r.result, r.submits + 1, delayFor jitter attempt :: r.delays⟩
      else ⟨.error e, 1, []⟩
    | .otherErr e => ⟨.error e, 1, []⟩

/-- `GremlinService.execute_query`'s retry behaviour. -/
def execute_query (outcome : Nat → GOutcome α) (jitter : Nat → ℚ) : QueryRun α :=
  execLoop outcome jitter 0 MAX_RETRIES none

/-! ### `GremlinService._escape` and quoted-literal safety

Python strings are embedded as `List Char`.  `str.replace` with a
single-character needle substitutes every occurrence, left to right. -/

def bslash : Char := '\\'

def squote : Char := '\''

/-- `value.replace(old, new)` for a single-character `old`. -/
def replaceChar (c : Char) (rep : List Char) : List Char → List Char
  | [] => []
  | a :: t => (if a = c then rep else [a]) ++ replaceChar c rep t

/-- `GremlinService._escape`:
`value.replace("\\", "\\\\").replace("'", "\\'")`. -/
def escapeValue (s : List Char) : List Char :=
  replaceChar squote [bslash, squote] (replaceChar bslash [bslash, bslash] s)

/-- Read a single-quoted Gremlin string literal body: consume characters up
to the first unescaped quote (the literal terminator), unescaping
backslash-escapes; `none` if no terminator is found.  Returns the decoded
content and the remainder after the closing quote. -/
def readQuoted : List Char → Option (List Char × List Char)
  | [] => none
  | a :: t =>
    if a = squote then some ([], t)
    else if a = bslash then
      match t with
      | [] => none
      | b :: t2 => (readQuoted t2).map fun p => (b :: p.1, p.2)
    else (readQuoted t).map fun p => (a :: p.1, p.2)

/-! ### Event dispatch and checkpointing of
`EventHubConsumerService._process_event` (`src/src/consume/event_hub_consumer.py`)

Only the structure that `_process_event` inspects is embedded: the set of
top-level JSON fields, whether `json.loads` and the two `model_validate`
calls succeed, the event's position, and — for the registered handlers —
whether they are set and whether invoking them raises.  All exceptions are
caught inside `_process_event`; the final `save_checkpoint` call is outside
the `try` block. -/

structure SEvent where
  keys : List String
  parse_ok : Bool
  node_valid : Bool
  edge_valid : Bool
  handler_raises : Bool
  offset : String
  sequence_number : Nat
  deriving DecidableEq, Repr

structure ConsumerCfg where
  has_node_handler : Bool
  has_edge_handler : Bool
  deriving DecidableEq, Repr

inductive HCall where
  | node_call
  | edge_call
  deriving DecidableEq, Repr

structure ProcOut where
  calls : List HCall
  unknown_logged : Bool
  checkpoint_saved : Bool
  saved : String × Nat
  deriving DecidableEq, Repr

/-- `EventHubConsumerService._process_event` for a non-`None` event:
parse, dispatch on the discriminator field, invoke the matching registered
handler (its exceptions are caught and logged), then save the checkpoint at
`(event.offset, event.sequence_number)` unconditionally. -/
def process_event (cfg : ConsumerCfg) (ev : SEvent) : ProcOut :=
  if ev.parse_ok = false then
    { calls := [], unknown_logged := false, checkpoint_saved := true,
      saved := (ev.offset, ev.sequence_number) }
  else if "node_type" ∈ ev.keys then
    { calls := if ev.node_valid && cfg.has_node_handler then [.node_call] else [],
      unknown_logged := false, checkpoint_saved := true,
      saved := (ev.offset, ev.sequence_number) }
  else if "edge_type" ∈ ev.keys then
    { calls := if ev.edge_valid && cfg.has_edge_handler then [.edge_call] else [],
      unknown_logged := false, checkpoint_saved := true,
      saved := (ev.offset, ev.sequence_number) }
  else
    { calls := [], unknown_logged := true, checkpoint_saved := true,
      saved := (ev.offset, ev.sequence_number) }

/-- `on_event_batch` inside `EventHubConsumerService.receive_batch`: the
sequence of checkpoint saves a delivered batch performs — one from
`_process_event` per event, then one for the batch at the last event's
position. -/
def on_event_batch_saves (cfg : ConsumerCfg) (events : List SEvent) :
    List (String × Nat) :=
  if events = [] then []
  else
    events.map (fun ev => (process_event cfg ev).saved) ++
      match events.getLast? with
      | some le => [(le.offset, le.sequence_number)]
      | none => []

/-! ### `GraphEventProcessor` (`src/src/ingestion/consume/consume.py`)

The processor is embedded as a state machine over the pending node-event
buffer plus the trace of calls it makes to the Gremlin engine and the
consumer.  The outcome of the batch application inside a flush is an
oracle `batchFail : Option Nat`: `none` when `process_node_events_batch`
completes (every batch call made), `some k` when it raises after making
the first `k` of its calls — the per-event fallback then re-applies every
buffered event individually (each exception caught), repeating the calls
the batch had already made.  Exceptions of `process_edge_event` are caught
inside the processor, so an edge call always appears in the trace whether
or not it succeeded. -/

inductive PAction where
  | node_upsert_call (e : GraphNodeEvent)
  | node_delete_call (lab : String)
  | edge_upsert_call (e : GraphEdgeEvent)
  | edge_delete_call (e : GraphEdgeEvent)
  | consumer_close
  | engine_close
  deriving DecidableEq, Repr

structure ProcState where
  running : Bool
  buffer : List GraphNodeEvent
  trace : List PAction
  deriving DecidableEq, Repr

def NODE_BATCH_SIZE : Nat := 50

/-- The engine call `GremlinService.process_node_event` makes for one node
event. -/
def nodeCallOf (e : GraphNodeEvent) : PAction :=
  match e.action with
  | .UPSERT => .node_upsert_call e
  | .DELETE => .node_delete_call e.label

/-- The engine call `GremlinService.process_edge_event` makes for one edge
event. -/
def edgeCallOf (e : GraphEdgeEvent) : PAction :=
  match e.action with
  | .UPSERT => .edge_upsert_call e
  | .DELETE => .edge_delete_call e

/-- Call sequence of `GremlinService.process_node_events_batch`: upsert
events first (chunked, in order), then delete events individually. -/
def batchCalls (evs : List GraphNodeEvent) : List PAction :=
  (evs.filter fun e => e.action = Action.UPSERT).map .node_upsert_call ++
    (evs.filter fun e => e.action = Action.DELETE).map fun e =>
      .node_delete_call e.label

/-- Call sequence of the per-event fallback loop in
`GraphEventProcessor._flush_node_batch`. -/
def fallbackCalls (evs : List GraphNodeEvent) : List PAction :=
  evs.map nodeCallOf

/-- `GraphEventProcessor._flush_node_batch`: empty buffer returns at once;
otherwise apply the batch — when `process_node_events_batch` raises after
its first `k` calls (`batchFail = some k`), fall back to applying every
buffered event individually, each exception caught — and in the `finally`
clause reset the buffer. -/
def flush_node_batch (batchFail : Option Nat) (s : ProcState) : ProcState :=
  if s.buffer = [] then s
  else
    { s with
      buffer := [],
      trace := s.trace ++
        match batchFail with
        | none => batchCalls s.buffer
        | some k => (batchCalls s.buffer).take k ++ fallbackCalls s.buffer }

/-- `GraphEventProcessor._handle_node_event`: buffer the event; flush when
the buffer reaches `NODE_BATCH_SIZE`. -/
def handle_node_event (batchFail : Option Nat) (e : GraphNodeEvent)
    (s : ProcState) : ProcState :=
  let s1 := { s with buffer := s.buffer ++ [e] }
  if NODE_BATCH_SIZE ≤ s1.buffer.length then flush_node_batch batchFail s1
  else s1

/-- `GraphEventProcessor._handle_edge_event`: flush pending node events
first, then process the edge (exceptions caught and logged). -/
def handle_edge_event (batchFail : Option Nat) (e : GraphEdgeEvent)
    (s : ProcState) : ProcState :=
  let s1 := flush_node_batch batchFail s
  { s1 with trace := s1.trace ++ [edgeCallOf e] }

/-- `GraphEventProcessor.stop`: no-op when not running; otherwise flush the
remaining buffer, then `self.consumer_service.close()`, then
`self.gremlin_service.close()`. -/
def stop_processor (batchFail : Option Nat) (s : ProcState) : ProcState :=
  if s.running = false then s
  else
    let s1 := flush_node_batch batchFail { s with running := false }
    { s1 with trace := s1.trace ++ [.consumer_close, .engine_close] }

/-- One event as delivered to the processor's registered handlers. -/
inductive DeliveredEvent where
  | node (e : GraphNodeEvent)
  | edge (e : GraphEdgeEvent)
  deriving DecidableEq, Repr

/-- Deliver a sequence of events to the processor's handlers in order. -/
def processDelivered (batchFail : Option Nat) (evs : List DeliveredEvent)
    (s : ProcState) : ProcState :=
  evs.foldl
    (fun st ev =>
      match ev with
      | .node ne => handle_node_event batchFail ne st
      | .edge ee => handle_edge_event batchFail ee st)
    s

/-! ### Lemmas -/

theorem updProps_nil (p : List (String × String)) : updProps p [] = p := rfl

theorem updProps_cons (p : List (String × String)) (kv : String × String)
    (t : List (String × String)) :
    updProps p (kv :: t) = updProps (setProp p kv.1 kv.2) t := rfl

theorem lookupP_eq_none_of_not_mem {p : List (String × String)} {k : String}
    (h : k ∉ p.map Prod.fst) : lookupP p k = none := by
  induction p with
  | nil => rfl
  | cons kv t ih =>
    simp only [List.map_cons, List.mem_cons] at h
    push_neg at h
    simp only [lookupP]
    rw [if_neg (fun hek => h.1 hek.symm), ih h.2]

theorem map_fst_setProp (p : List (String × String)) (k v : String) :
    (setProp p k v).map Prod.fst =
      if k ∈ p.map Prod.fst then p.map Prod.fst else p.map Prod.fst ++ [k] := by
  induction p with
  | nil => simp [setProp]
  | cons kv t ih =>
    by_cases hk : kv.1 = k
    · simp [setProp, hk]
    · have hke : ¬k = kv.1 := fun h => hk h.symm
      simp only [setProp, if_neg hk, List.map_cons, ih, List.mem_cons]
      by_cases hmem : k ∈ t.map Prod.fst
      · simp [hmem, hke]
      · simp [hmem, hke]

theorem mem_map_fst_setProp (p : List (String × String)) (k v : String) :
    k ∈ (setProp p k v).map Prod.fst := by
  rw [map_fst_setProp]
  by_cases h : k ∈ p.map Prod.fst
  · rw [if_pos h]; exact h
  · rw [if_neg h]; exact List.mem_append_right _ (List.mem_singleton_self k)

theorem mem_map_fst_setProp_of_mem {p : List (String × String)} {a : String}
    (k v : String) (h : a ∈ p.map Prod.fst) :
    a ∈ (setProp p k v).map Prod.fst := by
  rw [map_fst_setProp]
  by_cases hk : k ∈ p.map Prod.fst
  · rw [if_pos hk]; exact h
  · rw [if_neg hk]; exact List.mem_append_left _ h

theorem lookupP_setProp (p : List (String × String)) (k v k' : String) :
    lookupP (setProp p k v) k' = if k' = k then some v else lookupP p k' := by
  induction p with
  | nil =>
    simp only [setProp, lookupP]
    by_cases h : k' = k
    · simp [h]
    · rw [if_neg (fun he => h he.symm), if_neg h]
  | cons kv t ih =>
    by_cases hk : kv.1 = k
    · by_cases h : k' = k
      · simp [setProp, lookupP, hk, h]
      · have hne : ¬k = k' := fun hk2 => h hk2.symm
        simp [setProp, lookupP, hk, h, hne]
    · by_cases hh : kv.1 = k'
      · have hne : ¬k' = k := fun he => hk (hh.trans he)
        simp [setProp, lookupP, hk, hh, hne]
      · simp [setProp, lookupP, hk, hh, ih]

theorem nodup_map_fst_setProp {p : List (String × String)} (k v : String)
    (h : (p.map Prod.fst).Nodup) : ((setProp p k v).map Prod.fst).Nodup := by
  rw [map_fst_setProp]
  by_cases hk : k ∈ p.map Prod.fst
  · rw [if_pos hk]; exact h
  · rw [if_neg hk]
    refine List.Nodup.append h (List.nodup_singleton k) ?_
    intro x hx hx2
    rw [List.mem_singleton] at hx2
    subst hx2
    exact hk hx

theorem mem_map_fst_updProps_of_mem {p : List (String × String)}
    {a : String} (d : List (String × String)) (h : a ∈ p.map Prod.fst) :
    a ∈ (updProps p d).map Prod.fst := by
  induction d generalizing p with
  | nil => rw [updProps_nil]; exact h
  | cons kv t ih =>
    rw [updProps_cons]
    exact ih (mem_map_fst_setProp_of_mem kv.1 kv.2 h)

theorem mem_map_fst_updProps_of_mem_d {p d : List (String × String)}
    {a : String} (h : a ∈ d.map Prod.fst) :
    a ∈ (updProps p d).map Prod.fst := by
  induction d generalizing p with
  | nil => simp at h
  | cons kv t ih =>
    simp only [List.map_cons, List.mem_cons] at h
    rw [updProps_cons]
    rcases h with h | h
    · refine mem_map_fst_updProps_of_mem t ?_
      rw [h]
      exact mem_map_fst_setProp p kv.1 kv.2
    · exact ih h

theorem map_fst_updProps_of_closed {p d : List (String × String)}
    (h : ∀ a ∈ d.map Prod.fst, a ∈ p.map Prod.fst) :
    (updProps p d).map Prod.fst = p.map Prod.fst := by
  induction d generalizing p with
  | nil => rw [updProps_nil]
  | cons kv t ih =>
    have hk : kv.1 ∈ p.map Prod.fst := h kv.1 (by simp)
    have hfst : (setProp p kv.1 kv.2).map Prod.fst = p.map Prod.fst := by
      rw [map_fst_setProp, if_pos hk]
    have ht : ∀ a ∈ t.map Prod.fst, a ∈ (setProp p kv.1 kv.2).map Prod.fst := by
      intro a ha
      rw [hfst]
      exact h a (by simp [ha])
    rw [updProps_cons, ih ht, hfst]

theorem nodup_map_fst_updProps {p : List (String × String)}
    (d : List (String × String)) (h : (p.map Prod.fst).Nodup) :
    ((updProps p d).map Prod.fst).Nodup := by
  induction d generalizing p with
  | nil => rw [updProps_nil]; exact h
  | cons kv t ih =>
    rw [updProps_cons]
    exact ih (nodup_map_fst_setProp kv.1 kv.2 h)

theorem lookupP_updProps (p d : List (String × String)) (k : String) :
    lookupP (updProps p d) k =
      match lastVal d k with
      | some v => some v
      | none => lookupP p k := by
  induction d generalizing p with
  | nil => simp [updProps_nil, lastVal]
  | cons kv t ih =>
    rw [updProps_cons, ih]
    cases hl : lastVal t k with
    | some v => simp [lastVal, hl]
    | none =>
      rw [lookupP_setProp]
      by_cases hk : kv.1 = k
      · simp [lastVal, hl, hk]
      · have hk' : ¬k = kv.1 := fun he => hk he.symm
        simp [lastVal, hl, hk, hk']

theorem assoc_ext {p q : List (String × String)}
    (hfst : p.map Prod.fst = q.map Prod.fst)
    (hnd : (p.map Prod.fst).Nodup)
    (hl : ∀ k, lookupP p k = lookupP q k) : p = q := by
  induction p generalizing q with
  | nil =>
    cases q with
    | nil => rfl
    | cons kw tq => simp at hfst
  | cons kv t ih =>
    cases q with
    | nil => simp at hfst
    | cons kw tq =>
      simp only [List.map_cons, List.cons.injEq] at hfst
      obtain ⟨hk, htq⟩ := hfst
      have hv : kv.2 = kw.2 := by
        have hx := hl kv.1
        simp only [lookupP, if_pos rfl] at hx
        rw [← hk] at hx
        simp only [if_pos rfl] at hx
        exact Option.some.inj hx
      have hkv : kv = kw := by
        rcases kv with ⟨a, b⟩
        rcases kw with ⟨c, d⟩
        simp only at hk hv
        rw [hk, hv]
      subst hkv
      simp only [List.map_cons, List.nodup_cons] at hnd
      have htails : ∀ k, lookupP t k = lookupP tq k := by
        intro k
        by_cases hek : kv.1 = k
        · rw [← hek]
          rw [lookupP_eq_none_of_not_mem hnd.1,
            lookupP_eq_none_of_not_mem (htq ▸ hnd.1)]
        · have hx := hl k
          simpa only [lookupP, if_neg hek] using hx
      rw [ih htq hnd.2 htails]

/-- Re-applying the same `.property` chain to a property map is the identity:
the algebraic heart of node-upsert idempotence. -/
theorem updProps_idem {p : List (String × String)}
    (d : List (String × String)) (h : (p.map Prod.fst).Nodup) :
    updProps (updProps p d) d = updProps p d := by
  have hclosed : ∀ a ∈ d.map Prod.fst, a ∈ (updProps p d).map Prod.fst :=
    fun a ha => mem_map_fst_updProps_of_mem_d ha
  refine assoc_ext (map_fst_updProps_of_closed hclosed)
    (nodup_map_fst_updProps d (nodup_map_fst_updProps d h)) ?_
  intro k
  rw [lookupP_updProps, lookupP_updProps]
  cases hl : lastVal d k with
  | some v => simp
  | none => simp

/-! #### Vertex-list lemmas -/

theorem findV_mem {vs : List Vertex} {i : String} {v : Vertex}
    (h : findV vs i = some v) : v ∈ vs := by
  induction vs with
  | nil => simp [findV] at h
  | cons w t ih =>
    by_cases hw : w.id = i
    · simp only [findV, if_pos hw] at h
      exact (Option.some.inj h) ▸ List.mem_cons_self w t
    · simp only [findV, if_neg hw] at h
      exact List.mem_cons_of_mem w (ih h)

theorem findV_append (vs ws : List Vertex) (i : String) :
    findV (vs ++ ws) i =
      match findV vs i with
      | some v => some v
      | none => findV ws i := by
  induction vs with
  | nil => simp [findV]
  | cons w t ih =>
    by_cases hw : w.id = i
    · simp [findV, hw]
    · simp [findV, hw, ih]

theorem findV_eq_none_iff {vs : List Vertex} {i : String} :
    findV vs i = none ↔ ∀ v ∈ vs, v.id ≠ i := by
  induction vs with
  | nil => simp [findV]
  | cons w t ih =>
    by_cases hw : w.id = i
    · simp [findV, hw]
    · simp [findV, hw, ih]

theorem findV_updV {vs : List Vertex} {i : String} {v : Vertex}
    (f : Vertex → Vertex) (hf : ∀ w, (f w).id = w.id)
    (h : findV vs i = some v) : findV (updV f vs i) i = some (f v) := by
  induction vs with
  | nil => simp [findV] at h
  | cons w t ih =>
    by_cases hw : w.id = i
    · simp only [findV, if_pos hw] at h
      rw [Option.some.inj h] at hw ⊢
      simp [updV, findV, hw, hf v]
    · simp only [findV, if_neg hw] at h
      simp [updV, findV, hw, ih h]

theorem updV_updV (f g : Vertex → Vertex) (hf : ∀ w, (f w).id = w.id)
    (vs : List Vertex) (i : String) :
    updV g (updV f vs i) i = updV (fun w => g (f w)) vs i := by
  induction vs with
  | nil => rfl
  | cons w t ih =>
    by_cases hw : w.id = i
    · simp [updV, hw, hf w]
    · simp [updV, hw, ih]

theorem updV_congr_of_found {vs : List Vertex} {i : String} {v : Vertex}
    (f g : Vertex → Vertex) (h : findV vs i = some v) (hgf : g (f v) = f v) :
    updV (fun w => g (f w)) vs i = updV f vs i := by
  induction vs with
  | nil => rfl
  | cons w t ih =>
    by_cases hw : w.id = i
    · simp only [findV, if_pos hw] at h
      have hwv : w = v := Option.some.inj h
      subst hwv
      simp [updV, hw, hgf]
    · simp only [findV, if_neg hw] at h
      simp [updV, hw, ih h]

theorem updV_append_of_none {vs : List Vertex} {i : String}
    (f : Vertex → Vertex) (ws : List Vertex) (h : findV vs i = none) :
    updV f (vs ++ ws) i = vs ++ updV f ws i := by
  induction vs with
  | nil => rfl
  | cons w t ih =>
    have hw : w.id ≠ i := (findV_eq_none_iff.mp h) w (List.mem_cons_self w t)
    have ht : findV t i = none := by
      apply findV_eq_none_iff.mpr
      intro v hv
      exact (findV_eq_none_iff.mp h) v (List.mem_cons_of_mem w hv)
    simp [updV, hw, ih ht]

theorem vertices_upsert_edge_query (s t lbl : String)
    (data : List (String × Option String)) (g : GraphStore) :
    (upsert_edge_query s t lbl data g).vertices = g.vertices := by
  unfold upsert_edge_query
  cases findV g.vertices s with
  | none => rfl
  | some a =>
    cases findV g.vertices t with
    | none => rfl
    | some b => cases findE g.edges s t lbl <;> rfl

theorem findV_ensure_vertex_self (i pk : String) (g : GraphStore) :
    (findV (ensure_vertex i pk g).vertices i).isSome := by
  unfold ensure_vertex
  cases hf : findV g.vertices i with
  | some v => simp [hf]
  | none =>
    simp only
    rw [findV_append, hf]
    simp [findV]

theorem findV_ensure_vertex_mono {g : GraphStore} {j : String}
    (i pk : String) (h : (findV g.vertices j).isSome) :
    (findV (ensure_vertex i pk g).vertices j).isSome := by
  unfold ensure_vertex
  cases hf : findV g.vertices i with
  | some v => simpa using h
  | none =>
    simp only
    rw [findV_append]
    cases hj : findV g.vertices j with
    | some v => simp
    | none => rw [hj] at h; simp at h

/-- **C1.**  Edge-upsert endpoint invariant: processing an `UPSERT`
`GraphEdgeEvent` leaves both the source vertex and the target vertex present
in the graph store, whatever the prior state — the two ensure-endpoint
queries run before the edge-upsert query, which itself touches no vertex. -/
theorem edge_upsert_endpoints_exist (e : GraphEdgeEvent) (g : GraphStore)
    (ha : e.action = Action.UPSERT) :
    (findV (process_edge_event e g).vertices e.source_node_id).isSome ∧
      (findV (process_edge_event e g).vertices e.target_node_id).isSome := by
  unfold process_edge_event
  rw [ha]
  unfold upsert_edge
  rw [vertices_upsert_edge_query]
  constructor
  · exact findV_ensure_vertex_mono e.target_node_id e.target_node_type.value
      (findV_ensure_vertex_self e.source_node_id e.source_node_type.value g)
  · exact findV_ensure_vertex_self e.target_node_id e.target_node_type.value _

/-- Witness for C1 at a concrete event and the empty store. -/
theorem edge_upsert_endpoints_exist_witness :
    ({ event_id := "e1", edge_type := EdgeType.PURCHASED,
       source_node_id := "u1", source_node_type := NodeType.USER,
       target_node_id := "a1", target_node_type := NodeType.ARTICLE,
       data := [], action := Action.UPSERT } : GraphEdgeEvent).action
        = Action.UPSERT ∧
      ((findV (process_edge_event
          { event_id := "e1", edge_type := EdgeType.PURCHASED,
            source_node_id := "u1", source_node_type := NodeType.USER,
            target_node_id := "a1", target_node_type := NodeType.ARTICLE,
            data := [], action := Action.UPSERT } ⟨[], []⟩).vertices
          "u1").isSome ∧
        (findV (process_edge_event
          { event_id := "e1", edge_type := EdgeType.PURCHASED,
            source_node_id := "u1", source_node_type := NodeType.USER,
            target_node_id := "a1", target_node_type := NodeType.ARTICLE,
            data := [], action := Action.UPSERT } ⟨[], []⟩).vertices
          "a1").isSome) :=
  ⟨rfl, edge_upsert_endpoints_exist _ ⟨[], []⟩ rfl⟩

theorem applyPropsV_id (eff : List (String × String)) (w : Vertex) :
    (applyPropsV eff w).id = w.id := rfl

theorem upsert_node_found {g : GraphStore} {lab : String} {v : Vertex}
    (node_type : String) (data : List (String × Option String))
    (h : findV g.vertices lab = some v) (hvl : v.vLabel = lab) :
    upsert_node lab node_type data g =
      .ok { g with
        vertices :=
          updV (applyPropsV (effProps data ["id", "partitionKey"]))
            g.vertices lab } := by
  unfold upsert_node
  rw [h]
  simp [hvl]

theorem upsert_node_conflict {g : GraphStore} {lab : String} {v : Vertex}
    (node_type : String) (data : List (String × Option String))
    (h : findV g.vertices lab = some v) (hvl : ¬v.vLabel = lab) :
    upsert_node lab node_type data g = .error () := by
  unfold upsert_node
  rw [h]
  simp [hvl]

theorem upsert_node_new {g : GraphStore} {lab : String}
    (node_type : String) (data : List (String × Option String))
    (h : findV g.vertices lab = none) :
    upsert_node lab node_type data g =
      .ok { g with
        vertices := g.vertices ++
          [newNodeVertex lab node_type
            (effProps data ["id", "partitionKey"])] } := by
  unfold upsert_node
  rw [h]

theorem apply_node_event_upsert {e : GraphNodeEvent}
    (ha : e.action = Action.UPSERT) (g : GraphStore) :
    apply_node_event e g =
      match upsert_node e.label e.node_type.value e.data g with
      | .ok g2 => g2
      | .error _ => g := by
  unfold apply_node_event process_node_event
  rw [ha]

/-- **C2.**  Node-upsert idempotence: for an `UPSERT` `GraphNodeEvent` and
any well-formed store state, applying `process_node_event` twice yields the
same store as applying it once — the coalesce query updates the vertex
created (or updated) by the first application in place. -/
theorem process_node_event_idempotent (e : GraphNodeEvent) (g : GraphStore)
    (ha : e.action = Action.UPSERT) (hwf : StoreWF g) :
    apply_node_event e (apply_node_event e g) = apply_node_event e g := by
  have heq := apply_node_event_upsert ha
  set eff := effProps e.data ["id", "partitionKey"] with heff
  set f := applyPropsV eff with hfdef
  have hfid : ∀ w, (f w).id = w.id := fun w => rfl
  cases hf : findV g.vertices e.label with
  | some v =>
    by_cases hvl : v.vLabel = e.label
    · have h1 : apply_node_event e g =
          { g with vertices := updV f g.vertices e.label } := by
        rw [heq g, upsert_node_found e.node_type.value e.data hf hvl]
      have h2 : findV (updV f g.vertices e.label) e.label = some (f v) :=
        findV_updV f hfid hf
      have hfl : (f v).vLabel = e.label := hvl
      have hnd : (v.props.map Prod.fst).Nodup := hwf.2 v (findV_mem hf)
      have hff : f (f v) = f v := by
        simp only [hfdef, applyPropsV]
        rw [updProps_idem eff hnd]
      rw [h1, heq, upsert_node_found e.node_type.value e.data h2 hfl]
      simp only
      rw [updV_updV f f hfid, updV_congr_of_found f f hf hff]
    · have h1 : apply_node_event e g = g := by
        rw [heq g, upsert_node_conflict e.node_type.value e.data hf hvl]
      rw [h1]
      exact h1
  | none =>
    have h1 : apply_node_event e g =
        { g with
          vertices := g.vertices ++
            [newNodeVertex e.label e.node_type.value eff] } := by
      rw [heq g, upsert_node_new e.node_type.value e.data hf]
    set n := newNodeVertex e.label e.node_type.value eff with hn
    have h2 : findV (g.vertices ++ [n]) e.label = some n := by
      rw [findV_append, hf]
      simp [findV, hn, newNodeVertex]
    have hnl : n.vLabel = e.label := rfl
    have hfn : f n = n := by
      simp only [hfdef, applyPropsV, hn, newNodeVertex]
      have hemp : (([] : List (String × String)).map Prod.fst).Nodup := by simp
      rw [updProps_idem eff hemp]
    rw [h1, heq, upsert_node_found e.node_type.value e.data h2 hnl]
    simp only
    rw [updV_append_of_none f [n] hf]
    simp [updV, hfn]

/-- Witness for C2 at a concrete event and a concrete non-trivial store. -/
theorem process_node_event_idempotent_witness :
    ({ event_id := "e2", node_type := NodeType.USER,
       data := [("name", some "ada"), ("id", some "x"), ("age", none)],
       action := Action.UPSERT, label := "u1" } : GraphNodeEvent).action
        = Action.UPSERT ∧
      StoreWF ⟨[{ id := "u1", vLabel := "u1", partitionKey := "user",
                  props := [("name", some "bob" |>.getD ""), ("city", "ldn")] }],
               []⟩ ∧
      apply_node_event
          { event_id := "e2", node_type := NodeType.USER,
            data := [("name", some "ada"), ("id", some "x"), ("age", none)],
            action := Action.UPSERT, label := "u1" }
          (apply_node_event
            { event_id := "e2", node_type := NodeType.USER,
              data := [("name", some "ada"), ("id", some "x"), ("age", none)],
              action := Action.UPSERT, label := "u1" }
            ⟨[{ id := "u1", vLabel := "u1", partitionKey := "user",
                props := [("name", some "bob" |>.getD ""), ("city", "ldn")] }],
              []⟩) =
        apply_node_event
          { event_id := "e2", node_type := NodeType.USER,
            data := [("name", some "ada"), ("id", some "x"), ("age", none)],
            action := Action.UPSERT, label := "u1" }
          ⟨[{ id := "u1", vLabel := "u1", partitionKey := "user",
              props := [("name", some "bob" |>.getD ""), ("city", "ldn")] }],
            []⟩ :=
  ⟨rfl, by decide, process_node_event_idempotent _ _ rfl (by decide)⟩

/-! #### Event-processor lemmas (`GraphEventProcessor`) -/

theorem nodeCallOf_upsert {e : GraphNodeEvent} (h : e.action = Action.UPSERT) :
    nodeCallOf e = .node_upsert_call e := by
  unfold nodeCallOf
  rw [h]

theorem batchCalls_perm (l : List GraphNodeEvent) :
    (batchCalls l).Perm (l.map nodeCallOf) := by
  unfold batchCalls
  have h1 : (l.filter fun e => e.action = Action.UPSERT).map
        PAction.node_upsert_call
      = (l.filter fun e => e.action = Action.UPSERT).map nodeCallOf := by
    apply List.map_congr_left
    intro a ha
    have hm := (List.mem_filter.mp ha).2
    have hup : a.action = Action.UPSERT := by simpa using hm
    rw [nodeCallOf_upsert hup]
  have h2 : ((l.filter fun e => e.action = Action.DELETE).map fun e =>
        PAction.node_delete_call e.label)
      = (l.filter fun e => e.action = Action.DELETE).map nodeCallOf := by
    apply List.map_congr_left
    intro a ha
    have hm := (List.mem_filter.mp ha).2
    have hdel : a.action = Action.DELETE := by simpa using hm
    unfold nodeCallOf
    rw [hdel]
  rw [h1, h2, ← List.map_append]
  apply List.Perm.map
  have hpq : ∀ a ∈ l, (decide (a.action = Action.DELETE))
      = !(decide (a.action = Action.UPSERT)) := by
    intro a _
    cases a.action <;> simp
  rw [List.filter_congr hpq]
  exact List.filter_append_perm _ l

theorem mem_batchCalls_of_mem {evs : List GraphNodeEvent}
    {e : GraphNodeEvent} (h : e ∈ evs) : nodeCallOf e ∈ batchCalls evs :=
  (batchCalls_perm evs).mem_iff.mpr (List.mem_map_of_mem nodeCallOf h)

theorem flush_node_batch_spec (bo : Option Nat) (s : ProcState) :
    (flush_node_batch bo s).buffer = [] ∧
      (flush_node_batch bo s).running = s.running ∧
      ∃ added, (flush_node_batch bo s).trace = s.trace ++ added ∧
        (∀ e ∈ s.buffer, nodeCallOf e ∈ added) ∧
        (bo = none → added.Perm (s.buffer.map nodeCallOf)) := by
  unfold flush_node_batch
  by_cases hb : s.buffer = []
  · rw [if_pos hb]
    refine ⟨hb, rfl, [], by simp, ?_, by simp [hb]⟩
    intro e he
    rw [hb] at he
    simp at he
  · rw [if_neg hb]
    cases bo with
    | none =>
      refine ⟨rfl, rfl, batchCalls s.buffer, rfl, ?_, ?_⟩
      · intro e he
        exact mem_batchCalls_of_mem he
      · intro _
        exact batchCalls_perm s.buffer
    | some k =>
      refine ⟨rfl, rfl, (batchCalls s.buffer).take k ++ fallbackCalls s.buffer,
        rfl, ?_, ?_⟩
      · intro e he
        exact List.mem_append_right _ (List.mem_map_of_mem nodeCallOf he)
      · intro h
        exact absurd h (by simp)

/-- **C10 counterexample.**  "No event is flushed twice by the same flush
call" is false: when `process_node_events_batch` raises after its first
call, the per-event fallback re-applies every buffered event, so the one
buffered event reaches the engine twice within a single
`_flush_node_batch` call. -/
theorem flush_fallback_duplicates_counterexample :
    ((flush_node_batch (some 1)
        ⟨true,
          [{ event_id := "n1", node_type := NodeType.USER, data := [],
             action := Action.UPSERT, label := "A" }], []⟩).trace.count
        (PAction.node_upsert_call
          { event_id := "n1", node_type := NodeType.USER, data := [],
            action := Action.UPSERT, label := "A" }) = 2) ∧
      (flush_node_batch (some 1)
        ⟨true,
          [{ event_id := "n1", node_type := NodeType.USER, data := [],
             action := Action.UPSERT, label := "A" }], []⟩).buffer = [] := by
  decide

/-- **C10 (amended).**  Every return path of `_flush_node_batch` leaves the
buffer empty — no event is retained for a later retry — and every buffered
event's engine call appears in the flushed segment; when the batch
application completes without raising, each buffered event is applied
exactly once (a permutation of the buffer's per-event calls, upserts
grouped before deletes).  When the batch raises partway, the fallback
re-applies every event, repeating the calls already made. -/
theorem flush_node_batch_resets_buffer (bo : Option Nat) (s : ProcState) :
    (flush_node_batch bo s).buffer = [] ∧
      ∃ added, (flush_node_batch bo s).trace = s.trace ++ added ∧
        (∀ e ∈ s.buffer, nodeCallOf e ∈ added) ∧
        (bo = none → added.Perm (s.buffer.map nodeCallOf)) :=
  ⟨(flush_node_batch_spec bo s).1, (flush_node_batch_spec bo s).2.2⟩

/-- **C3.**  Edge events flush the pending node buffer first: the trace of
`_handle_edge_event` is the old trace, then the flush's engine calls —
covering every buffered node event — and only then the edge's call; in
particular delivering `[Node a, Node b, Edge e]` to a fresh processor
applies both node mutations before the edge mutation on every batch
outcome, and on the non-raising batch path the calls are exactly
`[upsert a, upsert b, edge]`. -/
theorem edge_event_flushes_nodes_first (bo : Option Nat)
    (a b : GraphNodeEvent) (e : GraphEdgeEvent)
    (ha : a.action = Action.UPSERT) (hb : b.action = Action.UPSERT) :
    (∀ s : ProcState, ∃ nodeCalls,
        (handle_edge_event bo e s).trace =
          s.trace ++ nodeCalls ++ [edgeCallOf e] ∧
        ∀ ev ∈ s.buffer, nodeCallOf ev ∈ nodeCalls) ∧
      (∃ nodeCalls,
        (processDelivered bo [.node a, .node b, .edge e]
            ⟨true, [], []⟩).trace = nodeCalls ++ [edgeCallOf e] ∧
        PAction.node_upsert_call a ∈ nodeCalls ∧
        PAction.node_upsert_call b ∈ nodeCalls) ∧
      (processDelivered none [.node a, .node b, .edge e]
          ⟨true, [], []⟩).trace =
        [PAction.node_upsert_call a, PAction.node_upsert_call b,
          edgeCallOf e] := by
  have hgen : ∀ s : ProcState, ∃ nodeCalls,
      (handle_edge_event bo e s).trace =
        s.trace ++ nodeCalls ++ [edgeCallOf e] ∧
      ∀ ev ∈ s.buffer, nodeCallOf ev ∈ nodeCalls := by
    intro s
    obtain ⟨-, -, added, htr, hmem, -⟩ := flush_node_batch_spec bo s
    refine ⟨added, ?_, hmem⟩
    unfold handle_edge_event
    simp only [htr, List.append_assoc]
  have hstep : processDelivered bo [.node a, .node b, .edge e]
      ⟨true, [], []⟩ = handle_edge_event bo e ⟨true, [a, b], []⟩ := by
    simp [processDelivered, handle_node_event, NODE_BATCH_SIZE]
  refine ⟨hgen, ?_, ?_⟩
  · obtain ⟨nodeCalls, htr, hmem⟩ := hgen ⟨true, [a, b], []⟩
    refine ⟨nodeCalls, ?_, ?_, ?_⟩
    · rw [hstep, htr]
      simp
    · rw [← nodeCallOf_upsert ha]
      exact hmem a (by simp)
    · rw [← nodeCallOf_upsert hb]
      exact hmem b (by simp)
  · simp [processDelivered, handle_node_event, handle_edge_event,
      flush_node_batch, NODE_BATCH_SIZE, batchCalls, nodeCallOf, ha, hb]

/-- Witness for C3 at concrete events. -/
theorem edge_event_flushes_nodes_first_witness :
    ({ event_id := "n1", node_type := NodeType.USER, data := [],
       action := Action.UPSERT, label := "A" } : GraphNodeEvent).action
        = Action.UPSERT ∧
      ({ event_id := "n2", node_type := NodeType.ARTICLE, data := [],
         action := Action.UPSERT, label := "B" } : GraphNodeEvent).action
          = Action.UPSERT ∧
      (processDelivered none
          [.node { event_id := "n1", node_type := NodeType.USER, data := [],
                   action := Action.UPSERT, label := "A" },
           .node { event_id := "n2", node_type := NodeType.ARTICLE, data := [],
                   action := Action.UPSERT, label := "B" },
           .edge { event_id := "e1", edge_type := EdgeType.PURCHASED,
                   source_node_id := "A", source_node_type := NodeType.USER,
                   target_node_id := "B", target_node_type := NodeType.ARTICLE,
                   data := [], action := Action.UPSERT }]
          ⟨true, [], []⟩).trace =
        [PAction.node_upsert_call
          { event_id := "n1", node_type := NodeType.USER, data := [],
            action := Action.UPSERT, label := "A" },
         PAction.node_upsert_call
          { event_id := "n2", node_type := NodeType.ARTICLE, data := [],
            action := Action.UPSERT, label := "B" },
         edgeCallOf
          { event_id := "e1", edge_type := EdgeType.PURCHASED,
            source_node_id := "A", source_node_type := NodeType.USER,
            target_node_id := "B", target_node_type := NodeType.ARTICLE,
            data := [], action := Action.UPSERT }] :=
  ⟨rfl, rfl, (edge_event_flushes_nodes_first none _ _ _ rfl rfl).2.2⟩

/-- **C7 counterexample.**  At a running processor with an empty buffer,
`stop` emits `consumer_close` *before* `engine_close`: the claimed order
(Graph Upsert Engine before Consumer) is false on the code, which runs
`self.consumer_service.close()` first. -/
theorem stop_close_order_counterexample :
    (stop_processor none ⟨true, [], []⟩).trace =
        [PAction.consumer_close, PAction.engine_close] ∧
      (stop_processor none ⟨true, [], []⟩).trace ≠
        [PAction.engine_close, PAction.consumer_close] := by
  decide

/-- **C7 (amended).**  On shutdown of a running processor, the remaining
node-event buffer is flushed first — every buffered event's engine call
precedes the closes, exactly once per event when the batch application
does not raise — and then the Consumer connection and the Graph Upsert
Engine connection are closed in that order (Consumer before Graph Upsert
Engine). -/
theorem stop_flushes_then_closes (bo : Option Nat) (s : ProcState)
    (hr : s.running = true) :
    ∃ fc, (stop_processor bo s).trace =
        s.trace ++ fc ++ [PAction.consumer_close, PAction.engine_close] ∧
      (∀ ev ∈ s.buffer, nodeCallOf ev ∈ fc) ∧
      (bo = none → fc.Perm (s.buffer.map nodeCallOf)) ∧
      (stop_processor bo s).buffer = [] ∧
      (stop_processor bo s).running = false := by
  unfold stop_processor
  rw [hr]
  simp only [Bool.true_eq_false, if_false]
  obtain ⟨hbuf, hrun, added, htr, hmem, hperm⟩ :=
    flush_node_batch_spec bo { s with running := false }
  refine ⟨added, ?_, hmem, hperm, hbuf, hrun⟩
  simp only [htr, List.append_assoc]

/-- Witness for C7's amended theorem at a concrete running state. -/
theorem stop_flushes_then_closes_witness :
    (⟨true,
        [{ event_id := "n1", node_type := NodeType.USER, data := [],
           action := Action.UPSERT, label := "A" }], []⟩ : ProcState).running
        = true ∧
      ∃ fc, (stop_processor none
          ⟨true,
            [{ event_id := "n1", node_type := NodeType.USER, data := [],
               action := Action.UPSERT, label := "A" }], []⟩).trace =
          [] ++ fc ++ [PAction.consumer_close, PAction.engine_close] ∧
        (∀ ev, ev ∈ ([{ event_id := "n1", node_type := NodeType.USER,
                          data := [], action := Action.UPSERT,
                          label := "A" }] :
              List GraphNodeEvent) → nodeCallOf ev ∈ fc) ∧
        ((none : Option Nat) = none →
          fc.Perm
            (([{ event_id := "n1", node_type := NodeType.USER, data := [],
                 action := Action.UPSERT, label := "A" }] :
                List GraphNodeEvent).map nodeCallOf)) ∧
        (stop_processor none
          ⟨true,
            [{ event_id := "n1", node_type := NodeType.USER, data := [],
               action := Action.UPSERT, label := "A" }], []⟩).buffer = [] ∧
        (stop_processor none
          ⟨true,
            [{ event_id := "n1", node_type := NodeType.USER, data := [],
               action := Action.UPSERT, label := "A" }], []⟩).running
          = false :=
  ⟨rfl, stop_flushes_then_closes none _ rfl⟩

/-! #### Retry-loop lemmas (`GremlinService.execute_query`) -/

theorem execLoop_succ_ok (o : Nat → GOutcome α) (j : Nat → ℚ)
    (attempt fuel : Nat) (last : Option Nat) {a : α}
    (h : o attempt = .ok a) :
    execLoop o j attempt (fuel + 1) last = ⟨.ok a, 1, []⟩ := by
  unfold execLoop
  rw [h]

theorem execLoop_succ_rate_cont (o : Nat → GOutcome α) (j : Nat → ℚ)
    (attempt fuel : Nat) (last : Option Nat) {e : Nat}
    (h : o attempt = .rateLimit e) (hlt : attempt < MAX_RETRIES - 1) :
    execLoop o j attempt (fuel + 1) last =
      ⟨(execLoop o j (attempt + 1) fuel (some e)).result,
        (execLoop o j (attempt + 1) fuel (some e)).submits + 1,
        delayFor j attempt ::
          (execLoop o j (attempt + 1) fuel (some e)).delays⟩ := by
  conv_lhs => unfold execLoop
  rw [h]
  simp [hlt]

theorem execLoop_succ_rate_last (o : Nat → GOutcome α) (j : Nat → ℚ)
    (attempt fuel : Nat) (last : Option Nat) {e : Nat}
    (h : o attempt = .rateLimit e) (hge : ¬attempt < MAX_RETRIES - 1) :
    execLoop o j attempt (fuel + 1) last = ⟨.error e, 1, []⟩ := by
  unfold execLoop
  rw [h]
  simp [hge]

/-- **C6.**  Retry policy of `execute_query` under rate-limiting: the
delay before retry `i` is `min(1·2^i + jitter, 32)` (and so lies in
`[0, 32]` for jitter in `[0, 1)`); when every attempt is rate-limited the
query is submitted exactly `MAX_RETRIES = 5` times, sleeps after the first
four, and raises the last rate-limit error; when the first success comes at
attempt `k < 5` the result is returned after exactly `k` delayed retries
(`k + 1` submissions). -/
theorem execute_query_retry_policy (outcome : Nat → GOutcome α)
    (jitter : Nat → ℚ) (errs : Nat → Nat) (k : Nat)
    (hj : ∀ i, 0 ≤ jitter i ∧ jitter i < 1)
    (hk : k ≤ MAX_RETRIES)
    (h429 : ∀ i, i < k → outcome i = GOutcome.rateLimit (errs i)) :
    (∀ i, 0 ≤ delayFor jitter i ∧ delayFor jitter i ≤ MAX_DELAY_SECONDS) ∧
      (k = MAX_RETRIES →
        execute_query outcome jitter =
          ⟨.error (errs 4), 5, (List.range 4).map (delayFor jitter)⟩) ∧
      (∀ a, k < MAX_RETRIES → outcome k = GOutcome.ok a →
        execute_query outcome jitter =
          ⟨.ok a, k + 1, (List.range k).map (delayFor jitter)⟩) := by
  refine ⟨?_, ?_, ?_⟩
  · intro i
    constructor
    · apply le_min
      · have h2 : (0 : ℚ) < 2 ^ i := by positivity
        have hji := (hj i).1
        unfold BASE_DELAY_SECONDS
        nlinarith
      · norm_num [MAX_DELAY_SECONDS]
    · exact min_le_right _ _
  · intro hk5
    rw [hk5] at h429
    have h0 := h429 0 (by norm_num [MAX_RETRIES])
    have h1 := h429 1 (by norm_num [MAX_RETRIES])
    have h2 := h429 2 (by norm_num [MAX_RETRIES])
    have h3 := h429 3 (by norm_num [MAX_RETRIES])
    have h4 := h429 4 (by norm_num [MAX_RETRIES])
    simp only [execute_query]
    simp [execLoop_succ_rate_cont, execLoop_succ_rate_last, h0, h1, h2, h3,
      h4, MAX_RETRIES, List.range_succ]
  · intro a hklt hok
    have hk4 : k ≤ 4 := by
      unfold MAX_RETRIES at hklt
      omega
    interval_cases k
    · simp only [execute_query]
      simp [execLoop_succ_ok, hok, MAX_RETRIES]
    · have h0 := h429 0 (by norm_num)
      simp only [execute_query]
      simp [execLoop_succ_rate_cont, execLoop_succ_ok, h0, hok, MAX_RETRIES,
        List.range_succ]
    · have h0 := h429 0 (by norm_num)
      have h1 := h429 1 (by norm_num)
      simp only [execute_query]
      simp [execLoop_succ_rate_cont, execLoop_succ_ok, h0, h1, hok,
        MAX_RETRIES, List.range_succ]
    · have h0 := h429 0 (by norm_num)
      have h1 := h429 1 (by norm_num)
      have h2 := h429 2 (by norm_num)
      simp only [execute_query]
      simp [execLoop_succ_rate_cont, execLoop_succ_ok, h0, h1, h2, hok,
        MAX_RETRIES, List.range_succ]
    · have h0 := h429 0 (by norm_num)
      have h1 := h429 1 (by norm_num)
      have h2 := h429 2 (by norm_num)
      have h3 := h429 3 (by norm_num)
      simp only [execute_query]
      simp [execLoop_succ_rate_cont, execLoop_succ_ok, h0, h1, h2, h3, hok,
        MAX_RETRIES, List.range_succ]

/-- Witness for C6: two rate-limited attempts, then success. -/
theorem execute_query_retry_policy_witness :
    (∀ i : Nat, (0 : ℚ) ≤ (fun _ : Nat => (1 : ℚ) / 2) i ∧
        (fun _ : Nat => (1 : ℚ) / 2) i < 1) ∧
      2 ≤ MAX_RETRIES ∧
      (∀ i, i < 2 →
        (fun i => if i < 2 then GOutcome.rateLimit i
          else GOutcome.ok (7 : Nat)) i = GOutcome.rateLimit (id i)) ∧
      execute_query
          (fun i => if i < 2 then GOutcome.rateLimit i
            else GOutcome.ok (7 : Nat))
          (fun _ : Nat => (1 : ℚ) / 2) =
        ⟨.ok 7, 2 + 1,
          (List.range 2).map (delayFor (fun _ : Nat => (1 : ℚ) / 2))⟩ := by
  refine ⟨fun i => by norm_num, by norm_num [MAX_RETRIES],
    fun i hi => by simp [hi], ?_⟩
  exact (execute_query_retry_policy
      (fun i => if i < 2 then GOutcome.rateLimit i else GOutcome.ok (7 : Nat))
      (fun _ : Nat => (1 : ℚ) / 2) id 2
      (fun i => by norm_num) (by norm_num [MAX_RETRIES])
      (fun i hi => by simp [hi])).2.2 7
    (by norm_num [MAX_RETRIES]) (by norm_num)

/-! #### Escaping lemmas (`GremlinService._escape`) -/

theorem replaceChar_append (c : Char) (rep : List Char) (l1 l2 : List Char) :
    replaceChar c rep (l1 ++ l2) =
      replaceChar c rep l1 ++ replaceChar c rep l2 := by
  induction l1 with
  | nil => rfl
  | cons a t ih => simp [replaceChar, ih]

theorem readQuoted_cons (a : Char) (t : List Char) :
    readQuoted (a :: t) =
      if a = squote then some ([], t)
      else if a = bslash then
        match t with
        | [] => none
        | b :: t2 => (readQuoted t2).map fun p => (b :: p.1, p.2)
      else (readQuoted t).map fun p => (a :: p.1, p.2) := by
  rw [readQuoted.eq_def]

theorem escapeValue_cons (ch : Char) (s : List Char) :
    escapeValue (ch :: s) =
      (if ch = bslash then [bslash, bslash]
        else if ch = squote then [bslash, squote] else [ch]) ++
        escapeValue s := by
  have hbq : ¬bslash = squote := by decide
  have hqb : ¬squote = bslash := by decide
  unfold escapeValue
  by_cases hb : ch = bslash
  · subst hb
    simp [replaceChar, replaceChar_append, hbq]
  · by_cases hq : ch = squote
    · subst hq
      simp [replaceChar, replaceChar_append, hbq, hqb]
    · simp [replaceChar, replaceChar_append, hb, hq]

theorem escapeValue_cons_bslash (s : List Char) :
    escapeValue (bslash :: s) = bslash :: bslash :: escapeValue s := by
  rw [escapeValue_cons, if_pos rfl]
  rfl

theorem escapeValue_cons_squote (s : List Char) :
    escapeValue (squote :: s) = bslash :: squote :: escapeValue s := by
  have hqb : ¬squote = bslash := by decide
  rw [escapeValue_cons, if_neg hqb, if_pos rfl]
  rfl

theorem escapeValue_cons_other {ch : Char} (s : List Char)
    (h1 : ¬ch = bslash) (h2 : ¬ch = squote) :
    escapeValue (ch :: s) = ch :: escapeValue s := by
  rw [escapeValue_cons, if_neg h1, if_neg h2]
  rfl

theorem readQuoted_escapeValue (s rest : List Char) :
    readQuoted (escapeValue s ++ squote :: rest) = some (s, rest) := by
  have hbq : ¬bslash = squote := by decide
  induction s with
  | nil =>
    have h0 : escapeValue [] = [] := rfl
    rw [h0, List.nil_append, readQuoted_cons]
    simp
  | cons ch t ih =>
    by_cases hb : ch = bslash
    · subst hb
      rw [escapeValue_cons_bslash, List.cons_append, List.cons_append,
        readQuoted_cons]
      simp only [if_neg hbq, if_pos rfl]
      simp [ih]
    · by_cases hq : ch = squote
      · subst hq
        rw [escapeValue_cons_squote, List.cons_append, List.cons_append,
          readQuoted_cons]
        simp only [if_neg hbq, if_pos rfl]
        simp [ih]
      · rw [escapeValue_cons_other t hb hq, List.cons_append, readQuoted_cons]
        simp [hb, hq, ih]

/-- **C8.**  `_escape` neutralizes quotes and backslashes: reading a
single-quoted literal whose body is `escapeValue s` consumes exactly the
intended closing quote — the embedded string terminates no quoted literal
early and decodes back to `s` — and escaping `O'Brien` yields
`O\'Brien`. -/
theorem escape_neutralizes_quotes :
    (∀ s rest : List Char,
        readQuoted (escapeValue s ++ squote :: rest) = some (s, rest)) ∧
      escapeValue ("O'Brien".data) = ("O\\'Brien".data) :=
  ⟨readQuoted_escapeValue, by decide⟩

/-! #### Consumer dispatch/checkpoint lemmas
(`EventHubConsumerService._process_event`) -/

/-- **C9.**  Dispatch gives node events precedence: a payload carrying both
`node_type` and `edge_type` is dispatched to the node handler only (exactly
one `node_call` when it parses, validates and a node handler is set;
never an `edge_call`), it is not logged as unknown, and the unknown-event
branch runs only when neither discriminator field is present. -/
theorem process_event_node_precedence (cfg : ConsumerCfg) (ev : SEvent)
    (hn : "node_type" ∈ ev.keys) (_he : "edge_type" ∈ ev.keys) :
    (process_event cfg ev).calls =
        (if ev.parse_ok && ev.node_valid && cfg.has_node_handler
          then [HCall.node_call] else []) ∧
      HCall.edge_call ∉ (process_event cfg ev).calls ∧
      (process_event cfg ev).unknown_logged = false ∧
      (∀ cfg2 ev2, (process_event cfg2 ev2).unknown_logged = true →
        "node_type" ∉ ev2.keys ∧ "edge_type" ∉ ev2.keys) := by
  have hmain : (process_event cfg ev).calls =
      (if ev.parse_ok && ev.node_valid && cfg.has_node_handler
        then [HCall.node_call] else []) := by
    unfold process_event
    cases hp : ev.parse_ok with
    | false => simp [hp]
    | true => simp [hp, hn]
  refine ⟨hmain, ?_, ?_, ?_⟩
  · rw [hmain]
    by_cases hcond : ev.parse_ok && ev.node_valid && cfg.has_node_handler
    · simp [hcond]
    · simp [hcond]
  · unfold process_event
    cases hp : ev.parse_ok with
    | false => simp [hp]
    | true => simp [hp, hn]
  · intro cfg2 ev2 h
    by_cases hp : ev2.parse_ok = false
    · simp [process_event, hp] at h
    · by_cases hn2 : "node_type" ∈ ev2.keys
      · simp [process_event, hp, hn2] at h
      · by_cases he2 : "edge_type" ∈ ev2.keys
        · simp [process_event, hp, hn2, he2] at h
        · exact ⟨hn2, he2⟩

/-- Witness for C9 at a concrete payload carrying both fields. -/
theorem process_event_node_precedence_witness :
    "node_type" ∈ (["node_type", "edge_type"] : List String) ∧
      "edge_type" ∈ (["node_type", "edge_type"] : List String) ∧
      (process_event ⟨true, true⟩
          ⟨["node_type", "edge_type"], true, true, true, false, "5", 3⟩).calls
        = [HCall.node_call] ∧
      HCall.edge_call ∉
        (process_event ⟨true, true⟩
          ⟨["node_type", "edge_type"], true, true, true, false, "5", 3⟩).calls ∧
      (process_event ⟨true, true⟩
          ⟨["node_type", "edge_type"], true, true, true, false,
            "5", 3⟩).unknown_logged = false := by
  have h := process_event_node_precedence ⟨true, true⟩
    ⟨["node_type", "edge_type"], true, true, true, false, "5", 3⟩
    (by decide) (by decide)
  exact ⟨by decide, by decide, h.1, h.2.1, h.2.2.1⟩

/-- **C4 counterexample.**  A node event whose handler invocation raises —
e.g. because the graph mutation failed fatally after retry exhaustion — is
checkpointed anyway: `_process_event` catches every handler exception and
the `save_checkpoint` call sits outside the `try` block, so the consumer
*is* advanced past the failed event; the claimed "batch is NOT
checkpointed" is false at this input. -/
theorem failed_event_still_checkpointed_counterexample :
    (process_event ⟨true, true⟩
        ⟨["node_type"], true, true, true, true, "100", 7⟩).checkpoint_saved
        = true ∧
      (process_event ⟨true, true⟩
        ⟨["node_type"], true, true, true, true, "100", 7⟩).saved
        = ("100", 7) := by
  decide

/-- **C4 (amended).**  A fatal graph-mutation failure does not surface as a
fatal error for the batch: every handler exception is caught and logged,
the checkpoint is saved at each event's position regardless, and the batch's
save sequence still ends at the last event's (offset, sequence_number) —
failed events are not retried on restart. -/
theorem event_failure_checkpointed_anyway (cfg : ConsumerCfg)
    (events : List SEvent) (le : SEvent)
    (hl : events.getLast? = some le) :
    (∀ ev ∈ events, (process_event cfg ev).checkpoint_saved = true ∧
        (process_event cfg ev).saved = (ev.offset, ev.sequence_number)) ∧
      (on_event_batch_saves cfg events).getLast? =
        some (le.offset, le.sequence_number) := by
  constructor
  · intro ev _
    unfold process_event
    by_cases hp : ev.parse_ok = false
    · simp [hp]
    · by_cases hn : "node_type" ∈ ev.keys
      · simp [hp, hn]
      · by_cases he : "edge_type" ∈ ev.keys
        · simp [hp, hn, he]
        · simp [hp, hn, he]
  · have hne : events ≠ [] := by
      intro h
      rw [h] at hl
      simp at hl
    unfold on_event_batch_saves
    rw [if_neg hne, hl]
    simp

/-- Witness for C4's amended theorem at a one-event batch whose handler
raises. -/
theorem event_failure_checkpointed_anyway_witness :
    ([(⟨["node_type"], true, true, true, true, "100", 7⟩ : SEvent)].getLast?
        = some (⟨["node_type"], true, true, true, true, "100", 7⟩ : SEvent)) ∧
      ((∀ ev ∈ [(⟨["node_type"], true, true, true, true, "100", 7⟩ : SEvent)],
          (process_event ⟨true, true⟩ ev).checkpoint_saved = true ∧
            (process_event ⟨true, true⟩ ev).saved =
              (ev.offset, ev.sequence_number)) ∧
        (on_event_batch_saves ⟨true, true⟩
            [(⟨["node_type"], true, true, true, true, "100", 7⟩ :
              SEvent)]).getLast? = some ("100", 7)) :=
  ⟨rfl,
    event_failure_checkpointed_anyway ⟨true, true⟩
      [(⟨["node_type"], true, true, true, true, "100", 7⟩ : SEvent)]
      (⟨["node_type"], true, true, true, true, "100", 7⟩ : SEvent) rfl⟩

/-! #### Batch checkpointing of `EventHubConsumerService.receive_batch` -/

theorem process_event_saved_position (cfg : ConsumerCfg) (ev : SEvent) :
    (process_event cfg ev).saved = (ev.offset, ev.sequence_number) := by
  unfold process_event
  by_cases hp : ev.parse_ok = false
  · simp [hp]
  · by_cases hn : "node_type" ∈ ev.keys
    · simp [hp, hn]
    · by_cases he : "edge_type" ∈ ev.keys
      · simp [hp, hn, he]
      · simp [hp, hn, he]

/-- **C5 counterexample.**  On a delivered two-event batch,
`receive_batch` updates the Checkpoint Store three times — once inside
`_process_event` for each event, then once more for the batch — not
"exactly once"; this consumer also has no `batch_complete_handler` to run.
The claimed single update is false at this input. -/
theorem receive_batch_saves_per_event_counterexample :
    on_event_batch_saves ⟨true, true⟩
        [⟨["node_type"], true, true, true, false, "o1", 1⟩,
          ⟨["node_type"], true, true, true, false, "o2", 2⟩] =
      [("o1", 1), ("o2", 2), ("o2", 2)] ∧
      ¬(on_event_batch_saves ⟨true, true⟩
          [⟨["node_type"], true, true, true, false, "o1", 1⟩,
            ⟨["node_type"], true, true, true, false, "o2", 2⟩]).length = 1 := by
  decide

/-- **C5 (amended).**  For every non-empty batch delivered by
`receive_batch`, the Checkpoint Store is updated once per event — by
`_process_event`, at that event's (offset, sequence_number) — and then once
more for the batch, again at the last event's (offset, sequence_number):
`n + 1` updates for an `n`-event batch, the final one at the last event's
position (there is no `batch_complete_handler` on this consumer). -/
theorem receive_batch_checkpoints_per_event_then_batch (cfg : ConsumerCfg)
    (events : List SEvent) (le : SEvent)
    (hl : events.getLast? = some le) :
    on_event_batch_saves cfg events =
        events.map (fun ev => (ev.offset, ev.sequence_number)) ++
          [(le.offset, le.sequence_number)] ∧
      (on_event_batch_saves cfg events).length = events.length + 1 ∧
      (on_event_batch_saves cfg events).getLast? =
        some (le.offset, le.sequence_number) := by
  have hne : events ≠ [] := by
    intro h
    rw [h] at hl
    simp at hl
  have hsaves : on_event_batch_saves cfg events =
      events.map (fun ev => (ev.offset, ev.sequence_number)) ++
        [(le.offset, le.sequence_number)] := by
    unfold on_event_batch_saves
    rw [if_neg hne, hl]
    rw [List.map_congr_left
      (fun ev _ => process_event_saved_position cfg ev)]
  refine ⟨hsaves, ?_, ?_⟩
  · rw [hsaves]
    simp
  · rw [hsaves]
    simp

/-- Witness for C5's amended theorem at a concrete two-event batch. -/
theorem receive_batch_checkpoints_per_event_then_batch_witness :
    ([(⟨["node_type"], true, true, true, false, "o1", 1⟩ : SEvent),
        (⟨["node_type"], true, true, true, false, "o2", 2⟩ :
          SEvent)].getLast? =
        some (⟨["node_type"], true, true, true, false, "o2", 2⟩ : SEvent)) ∧
      (on_event_batch_saves ⟨true, true⟩
          [(⟨["node_type"], true, true, true, false, "o1", 1⟩ : SEvent),
            (⟨["node_type"], true, true, true, false, "o2", 2⟩ : SEvent)] =
          [(⟨["node_type"], true, true, true, false, "o1", 1⟩ :
              SEvent),
            (⟨["node_type"], true, true, true, false, "o2", 2⟩ :
              SEvent)].map (fun ev => (ev.offset, ev.sequence_number)) ++
            [("o2", 2)] ∧
        (on_event_batch_saves ⟨true, true⟩
          [(⟨["node_type"], true, true, true, false, "o1", 1⟩ : SEvent),
            (⟨["node_type"], true, true, true, false, "o2", 2⟩ :
              SEvent)]).length =
          [(⟨["node_type"], true, true, true, false, "o1", 1⟩ : SEvent),
            (⟨["node_type"], true, true, true, false, "o2", 2⟩ :
              SEvent)].length + 1 ∧
        (on_event_batch_saves ⟨true, true⟩
          [(⟨["node_type"], true, true, true, false, "o1", 1⟩ : SEvent),
            (⟨["node_type"], true, true, true, false, "o2", 2⟩ :
              SEvent)]).getLast? = some ("o2", 2)) :=
  ⟨rfl,
    receive_batch_checkpoints_per_event_then_batch ⟨true, true⟩
      [(⟨["node_type"], true, true, true, false, "o1", 1⟩ : SEvent),
        (⟨["node_type"], true, true, true, false, "o2", 2⟩ : SEvent)]
      (⟨["node_type"], true, true, true, false, "o2", 2⟩ : SEvent) rfl⟩

end GraphChat
